import Mathlib

/-!
Verification development for the gevolution-1.2 relativistic particle-mesh
engine.  The C++ sources embedded here are

* `include/gevolution/power.hpp`  — the spectral-analysis utility
  `power_spectrum`;
* `include/gevolution/gr_pm.hpp`  — the class `relativistic_pm`
  (constructor, `sample`, `compute_phi` / `compute_chi` / `compute_Bi` /
  `compute_potential`, `compute_forces`).

Modelling conventions: floating-point reals are embedded as exact rationals,
`std::complex` values as pairs of rationals.  Grid cells are indexed by
`Fin 3 → ℤ`; a LATfield2 field (which owns an interior of `N³` cells plus a
ghost halo of width 2) is embedded as a total function on `ℤ³`, with values
outside the halo-extended range playing the role of unowned memory.
The distributed lattice, halo exchange and FFT backend are external
collaborators of the repository; the FFT is kept abstract (a forward and a
backward map supplied as parameters, constrained only by the properties a
transform of zero data must have), and halo exchange is embedded as the
periodic copy `updateHalo`.
-/

namespace gevolution

/-- Complex value: a pair (re, im) of exact rationals, modelling
`std::complex<double>`. -/
abbrev CQ := ℚ × ℚ

/-- `std::norm`: squared magnitude of a complex number. -/
def cnorm (z : CQ) : ℚ := z.1 * z.1 + z.2 * z.2

/-- Scalar multiple of a complex value. -/
def csmul (r : ℚ) (z : CQ) : CQ := (r * z.1, r * z.2)

/-- Complex value divided by a real scalar (componentwise). -/
def cdivr (z : CQ) (r : ℚ) : CQ := (z.1 / r, z.2 / r)

/-- Complex negation. -/
def cneg (z : CQ) : CQ := (-z.1, -z.2)

/-!
## Embedding of `include/gevolution/power.hpp`

A mode-space scalar field is embedded as the list of its local lattice
sites: integer coordinate triples together with the stored complex value,
plus the global lattice size `F.lattice().size(1)` and the component count
of the field.  `power_spectrum` iterates exactly once over this collection
(`F.for_each`), so a list is a faithful image of the local mode set.
The `boost::mpi::all_reduce` pairwise sum over processes is the identity on
a single-process image; the reduction itself belongs to the external
transport layer.
-/

/-- A mode-space field as `power_spectrum` sees it. -/
structure ModeField where
  Nglobal : ℕ
  components : ℕ
  modes : List ((Fin 3 → ℕ) × CQ)

/-- `signed_mode` lambda of `power_spectrum`:
`n <= k_nyquist ? n : N_global - n`. -/
def signed_mode (k_nyquist N_global n : ℕ) : ℕ :=
  if n ≤ k_nyquist then n else N_global - n

/-- The `global_mode` accumulator of `power_spectrum`: sum over the three
axes of the squared signed wavenumber.  (The C++ accumulates the integer
squares into a `double`; the value is an exact integer.) -/
def global_mode (k_nyquist N_global : ℕ) (c : Fin 3 → ℕ) : ℕ :=
  ∑ i : Fin 3, (signed_mode k_nyquist N_global (c i)) ^ 2

/-- `std::floor(std::sqrt(gm) + 0.5)` computed exactly on integers: the
rounded radial bin `⌊√gm + 1/2⌋` is the number of integers `k ≥ 1` with
`k ≤ √gm + 1/2`, i.e. with `(2k-1)² ≤ 4·gm`; all such `k` lie in
`[1, gm+1]`.  (A tie `√gm = k - 1/2` would need `4·gm` to be an odd
perfect square, impossible, so the floating-point rounding of the C++
never straddles a bin boundary.) -/
def radialBin (gm : ℕ) : ℕ :=
  ((List.range (gm + 1)).filter fun n => (2 * n + 1) ^ 2 ≤ 4 * gm).length

/-- The body of the `F.for_each` lambda of `power_spectrum`: one mode is
folded into the `(count, sum)` bins.  Mirrors the C++ reference mutation:
`++count; sum += z2;` and, when `global_mode > 0`, once more
`sum += z2; ++count;`.  A mode whose radial bin index is out of range is
dropped (`if(index >= pw.size()) return;`). -/
def accumulateMode (k_nyquist N_global : ℕ) (pw : List (ℕ × ℚ))
    (m : (Fin 3 → ℕ) × CQ) : List (ℕ × ℚ) :=
  let gm := global_mode k_nyquist N_global m.1
  let index := radialBin gm
  if index < pw.length then
    let z2 := cnorm m.2
    let count := (pw.getD index (0, 0)).1
    let sum := (pw.getD index (0, 0)).2
    let count1 := count + 1
    let sum1 := sum + z2
    let count2 := if 0 < gm then count1 + 1 else count1
    let sum2 := if 0 < gm then sum1 + z2 else sum1
    pw.set index (count2, sum2)
  else pw

/-- `gevolution::power_spectrum` of `power.hpp`.  Throwing
`std::runtime_error` is embedded as `Except.error`; the `all_reduce` is the
identity on the single-process image of the local bins. -/
def power_spectrum (F : ModeField) : Except String (List ℚ) :=
  let N_global := F.Nglobal
  let N3_inv : ℚ := (1 / (N_global : ℚ)) ^ 3
  let k_nyquist := (N_global - 1) / 2
  let pw0 : List (ℕ × ℚ) := List.replicate (k_nyquist + 1) (0, 0)
  if 1 < F.components then
    Except.error "gevolution::power_spectrum only works for scalar fields"
  else
    let pw := F.modes.foldl (accumulateMode k_nyquist N_global) pw0
    Except.ok (pw.map fun ce => (if 0 < ce.1 then ce.2 / (ce.1 : ℚ) else 0) * N3_inv)

/-!
### Per-bin closed forms

`modeMult` is the multiplicity with which one local mode enters a given
bin: 2 for a mode of strictly positive radial magnitude (the hidden
conjugate-symmetric partner of the real-to-complex storage), 1 for the DC
mode, 0 for the other bins.  `binCount`/`binSum` are the per-bin closed
forms of the fold.
-/

/-- Multiplicity with which mode `m` enters bin `b`. -/
def modeMult (k_nyquist N_global b : ℕ) (m : (Fin 3 → ℕ) × CQ) : ℕ :=
  let gm := global_mode k_nyquist N_global m.1
  if radialBin gm = b then (if 0 < gm then 2 else 1) else 0

/-- Per-bin mode count of a field, as accumulated by `power_spectrum`
(for bins within the output range). -/
def binCount (F : ModeField) (b : ℕ) : ℕ :=
  (F.modes.map (modeMult ((F.Nglobal - 1) / 2) F.Nglobal b)).sum

/-- Per-bin sum of squared magnitudes of a field, as accumulated by
`power_spectrum` (for bins within the output range). -/
def binSum (F : ModeField) (b : ℕ) : ℚ :=
  (F.modes.map
    (fun m => (modeMult ((F.Nglobal - 1) / 2) F.Nglobal b m : ℚ) * cnorm m.2)).sum

lemma accumulateMode_length (k_nyquist N_global : ℕ) (pw : List (ℕ × ℚ))
    (m : (Fin 3 → ℕ) × CQ) :
    (accumulateMode k_nyquist N_global pw m).length = pw.length := by
  simp only [accumulateMode]
  split
  · simp
  · rfl

lemma foldl_accumulate_length (k_nyquist N_global : ℕ)
    (modes : List ((Fin 3 → ℕ) × CQ)) (pw : List (ℕ × ℚ)) :
    (modes.foldl (accumulateMode k_nyquist N_global) pw).length = pw.length := by
  induction modes generalizing pw with
  | nil => rfl
  | cons m rest ih =>
      rw [List.foldl_cons, ih, accumulateMode_length]

lemma accumulateMode_getD (k_nyquist N_global : ℕ) (pw : List (ℕ × ℚ))
    (m : (Fin 3 → ℕ) × CQ) (b : ℕ) (hb : b < pw.length) :
    (accumulateMode k_nyquist N_global pw m).getD b (0, 0) =
      ((pw.getD b (0, 0)).1 + modeMult k_nyquist N_global b m,
       (pw.getD b (0, 0)).2 + (modeMult k_nyquist N_global b m : ℚ) * cnorm m.2) := by
  simp only [accumulateMode, modeMult]
  by_cases h : radialBin (global_mode k_nyquist N_global m.1) < pw.length
  · rw [if_pos h]
    by_cases heq : radialBin (global_mode k_nyquist N_global m.1) = b
    · rw [if_pos heq, List.getD_eq_getElem?_getD, heq,
        List.getElem?_set_self (heq ▸ hb)]
      by_cases hgm : 0 < global_mode k_nyquist N_global m.1
      · simp only [if_pos hgm, Option.getD_some]
        push_cast
        simp only [Prod.mk.injEq]
        constructor <;> ring_nf
      · simp only [if_neg hgm, Option.getD_some]
        push_cast
        simp only [Prod.mk.injEq]
        constructor <;> ring_nf
    · rw [if_neg heq, List.getD_eq_getElem?_getD, List.getElem?_set_ne heq,
        ← List.getD_eq_getElem?_getD]
      simp
  · rw [if_neg h]
    have heq : radialBin (global_mode k_nyquist N_global m.1) ≠ b := by
      intro hc
      exact h (hc ▸ hb)
    rw [if_neg heq]
    simp

lemma foldl_accumulate_getD (k_nyquist N_global : ℕ)
    (modes : List ((Fin 3 → ℕ) × CQ)) (pw : List (ℕ × ℚ)) (b : ℕ)
    (hb : b < pw.length) :
    (modes.foldl (accumulateMode k_nyquist N_global) pw).getD b (0, 0) =
      ((pw.getD b (0, 0)).1 + (modes.map (modeMult k_nyquist N_global b)).sum,
       (pw.getD b (0, 0)).2 +
         (modes.map
           (fun m => (modeMult k_nyquist N_global b m : ℚ) * cnorm m.2)).sum) := by
  induction modes generalizing pw with
  | nil => simp
  | cons m rest ih =>
      rw [List.foldl_cons]
      have hb1 : b < (accumulateMode k_nyquist N_global pw m).length := by
        rw [accumulateMode_length]; exact hb
      rw [ih (accumulateMode k_nyquist N_global pw m) hb1,
        accumulateMode_getD k_nyquist N_global pw m b hb]
      simp only [List.map_cons, List.sum_cons]
      simp only [Prod.mk.injEq]
      constructor <;> ring

lemma binSum_eq_zero_of_binCount_eq_zero (F : ModeField) (b : ℕ)
    (h : binCount F b = 0) : binSum F b = 0 := by
  unfold binCount at h
  unfold binSum
  apply List.sum_eq_zero
  intro x hx
  rw [List.mem_map] at hx
  obtain ⟨m, hm, hmx⟩ := hx
  have hmult : modeMult ((F.Nglobal - 1) / 2) F.Nglobal b m = 0 := by
    have := List.sum_eq_zero_iff.mp h
    exact this _ (List.mem_map.mpr ⟨m, hm, rfl⟩)
  rw [← hmx, hmult]
  simp

lemma getD_of_lt {α : Type} (l : List α) (b : ℕ) (d : α) (h : b < l.length) :
    l.getD b d = l.get ⟨b, h⟩ := by
  rw [List.getD_eq_getElem?_getD, List.getElem?_eq_getElem h]
  rfl

/-- Shared closed form of `power_spectrum` on a scalar field: the result is
`ok`, has one entry per radial bin up to the Nyquist bin, and entry `b` is
the guarded average of bin `b` scaled by `1/N³`. -/
lemma power_spectrum_ok (F : ModeField) (h : ¬ 1 < F.components) :
    ∃ avg, power_spectrum F = Except.ok avg ∧
      avg.length = (F.Nglobal - 1) / 2 + 1 ∧
      ∀ b (hb : b < avg.length),
        avg.get ⟨b, hb⟩ =
          (if 0 < binCount F b then binSum F b / (binCount F b : ℚ) else 0) *
            (1 / (F.Nglobal : ℚ)) ^ 3 := by
  unfold power_spectrum
  rw [if_neg h]
  refine ⟨_, rfl, ?_, ?_⟩
  · rw [List.length_map, foldl_accumulate_length, List.length_replicate]
  · intro b hb
    have hb0 : b < (List.replicate ((F.Nglobal - 1) / 2 + 1) ((0 : ℕ), (0 : ℚ))).length := by
      rw [List.length_replicate]
      rw [List.length_map, foldl_accumulate_length, List.length_replicate] at hb
      exact hb
    have hbf : b < (F.modes.foldl
        (accumulateMode ((F.Nglobal - 1) / 2) F.Nglobal)
        (List.replicate ((F.Nglobal - 1) / 2 + 1) ((0 : ℕ), (0 : ℚ)))).length := by
      rw [foldl_accumulate_length]
      exact hb0
    rw [List.get_eq_getElem, List.getElem_map,
      ← List.get_eq_getElem _ ⟨b, hbf⟩, ← getD_of_lt _ _ (0, 0) hbf,
      foldl_accumulate_getD _ _ _ _ b hb0]
    have hrep : (List.replicate ((F.Nglobal - 1) / 2 + 1) ((0 : ℕ), (0 : ℚ))).getD
        b (0, 0) = (0, 0) := by
      rw [List.getD_eq_getElem?_getD, List.getElem?_replicate]
      rw [List.length_replicate] at hb0
      rw [if_pos hb0]
      rfl
    rw [hrep]
    simp only [zero_add]
    rfl

/-- C3: on a scalar mode-space field over an `N`-grid, `power_spectrum`
returns the list indexed by increasing radial bin, of length Nyquist bin
plus one, whose entry at bin `b` is the per-bin sum of squared magnitudes
divided by the per-bin count, scaled by `1/N³`.  (For an empty bin the sum
is zero as well, so the guarded division of the code agrees with the
`sum/count` of the claim under the `0/0 = 0` convention of `ℚ`.) -/
theorem C3_power_spectrum_average (F : ModeField) (h : ¬ 1 < F.components) :
    ∃ avg, power_spectrum F = Except.ok avg ∧
      avg.length = (F.Nglobal - 1) / 2 + 1 ∧
      ∀ b (hb : b < avg.length),
        avg.get ⟨b, hb⟩ =
          binSum F b / (binCount F b : ℚ) * (1 / (F.Nglobal : ℚ)) ^ 3 := by
  obtain ⟨avg, hok, hlen, hval⟩ := power_spectrum_ok F h
  refine ⟨avg, hok, hlen, ?_⟩
  intro b hb
  rw [hval b hb]
  by_cases hc : 0 < binCount F b
  · rw [if_pos hc]
  · rw [if_neg hc]
    have h0 : binCount F b = 0 := by omega
    rw [binSum_eq_zero_of_binCount_eq_zero F b h0, h0]
    norm_num

/-- Witness for C3 at a concrete two-mode field on a 3-grid. -/
theorem C3_power_spectrum_average_witness :
    (¬ 1 < (ModeField.mk 3 1 [(![0, 0, 0], (2, 0)), (![1, 0, 0], (1, 1))]).components) ∧
    (∃ avg,
      power_spectrum (ModeField.mk 3 1 [(![0, 0, 0], (2, 0)), (![1, 0, 0], (1, 1))]) =
        Except.ok avg ∧
      avg.length = ((3 : ℕ) - 1) / 2 + 1 ∧
      ∀ b (hb : b < avg.length),
        avg.get ⟨b, hb⟩ =
          binSum (ModeField.mk 3 1 [(![0, 0, 0], (2, 0)), (![1, 0, 0], (1, 1))]) b /
            (binCount (ModeField.mk 3 1 [(![0, 0, 0], (2, 0)), (![1, 0, 0], (1, 1))]) b : ℚ) *
            (1 / ((ModeField.mk 3 1 [(![0, 0, 0], (2, 0)), (![1, 0, 0], (1, 1))]).Nglobal : ℚ)) ^ 3) :=
  ⟨by decide,
   C3_power_spectrum_average
     (ModeField.mk 3 1 [(![0, 0, 0], (2, 0)), (![1, 0, 0], (1, 1))]) (by decide)⟩

/-- C4 counterexample: on a 5-grid (Nyquist bin 2) the local mode with
coordinates (2,2,2) has strictly positive radial magnitude (`global_mode`
= 12, radial bin 3), yet folding it into the bins leaves every bin's count
and sum unchanged — it contributes zero times, not twice, because its
radial bin lies beyond the Nyquist bin and `power_spectrum` drops it. -/
theorem C4_counterexample :
    0 < global_mode 2 5 ![2, 2, 2] ∧
    accumulateMode 2 5 (List.replicate 3 ((0 : ℕ), (0 : ℚ))) (![2, 2, 2], (1, 0)) =
      List.replicate 3 ((0 : ℕ), (0 : ℚ)) := by
  constructor
  · decide
  · decide

/-- C4 (amended): every local mode whose radial bin index lies within the
output range (at most the Nyquist bin) and has strictly positive radial
magnitude contributes exactly twice to its bin's count and twice to its
bin's sum of squared magnitudes, while a DC-magnitude mode contributes
exactly once to each; all other bins are untouched. -/
theorem C4_amended_double_count (k_nyquist N_global : ℕ) (pw : List (ℕ × ℚ))
    (m : (Fin 3 → ℕ) × CQ)
    (hin : radialBin (global_mode k_nyquist N_global m.1) < pw.length) :
    accumulateMode k_nyquist N_global pw m =
      pw.set (radialBin (global_mode k_nyquist N_global m.1))
        ((pw.getD (radialBin (global_mode k_nyquist N_global m.1)) (0, 0)).1 +
           (if 0 < global_mode k_nyquist N_global m.1 then 2 else 1),
         (pw.getD (radialBin (global_mode k_nyquist N_global m.1)) (0, 0)).2 +
           (if 0 < global_mode k_nyquist N_global m.1 then 2 else 1) * cnorm m.2) := by
  simp only [accumulateMode]
  rw [if_pos hin]
  by_cases hgm : 0 < global_mode k_nyquist N_global m.1
  · simp only [if_pos hgm]
    congr 2
    ring
  · simp only [if_neg hgm]
    congr 2
    ring

/-- Witness for the amended C4 at a concrete in-range mode. -/
theorem C4_amended_double_count_witness :
    radialBin (global_mode 2 5 ![1, 0, 0]) < (List.replicate 3 ((0 : ℕ), (0 : ℚ))).length ∧
    accumulateMode 2 5 (List.replicate 3 ((0 : ℕ), (0 : ℚ))) (![1, 0, 0], (1, 2)) =
      (List.replicate 3 ((0 : ℕ), (0 : ℚ))).set (radialBin (global_mode 2 5 ![1, 0, 0]))
        (((List.replicate 3 ((0 : ℕ), (0 : ℚ))).getD (radialBin (global_mode 2 5 ![1, 0, 0])) (0, 0)).1 +
           (if 0 < global_mode 2 5 ![1, 0, 0] then 2 else 1),
         ((List.replicate 3 ((0 : ℕ), (0 : ℚ))).getD (radialBin (global_mode 2 5 ![1, 0, 0])) (0, 0)).2 +
           (if 0 < global_mode 2 5 ![1, 0, 0] then 2 else 1) * cnorm (1, 2)) :=
  ⟨by decide,
   C4_amended_double_count 2 5 (List.replicate 3 ((0 : ℕ), (0 : ℚ))) (![1, 0, 0], (1, 2))
     (by decide)⟩

/-- C6: `power_spectrum` on any field with more than one component fails
with the fatal configuration error, whatever the local mode data is — in
particular no mode is ever accumulated into any bin (the result does not
depend on `F.modes`). -/
theorem C6_multicomponent_rejected (F : ModeField) (h : 1 < F.components) :
    power_spectrum F =
      Except.error "gevolution::power_spectrum only works for scalar fields" := by
  unfold power_spectrum
  rw [if_pos h]

/-- Witness for C6 at a concrete 3-component field with nonempty mode data. -/
theorem C6_multicomponent_rejected_witness :
    1 < (ModeField.mk 4 3 [(![1, 1, 0], (5, 6))]).components ∧
    power_spectrum (ModeField.mk 4 3 [(![1, 1, 0], (5, 6))]) =
      Except.error "gevolution::power_spectrum only works for scalar fields" :=
  ⟨by decide, C6_multicomponent_rejected (ModeField.mk 4 3 [(![1, 1, 0], (5, 6))]) (by decide)⟩

/-- C7: on a scalar field, every radial bin whose total count is zero gets
the output entry exactly 0: the guarded average (`if(pw[i].first>0)`) never
divides by the zero count.  (In this exact-rational embedding there are no
NaNs; the statable content is that the entry is exactly zero.) -/
theorem C7_empty_bin_zero (F : ModeField) (h : ¬ 1 < F.components) (b : ℕ)
    (h0 : binCount F b = 0) (hb : b < (F.Nglobal - 1) / 2 + 1) :
    ∀ avg, power_spectrum F = Except.ok avg → avg.getD b 1 = 0 := by
  obtain ⟨avg, hok, hlen, hval⟩ := power_spectrum_ok F h
  intro avg2 hok2
  rw [hok] at hok2
  have havg : avg2 = avg := by
    injection hok2.symm
  subst havg
  have hb2 : b < avg2.length := by
    rw [hlen]; exact hb
  rw [getD_of_lt avg2 b 1 hb2, hval b hb2, if_neg (by omega)]
  ring

/-- Witness for C7: a field with no local modes on a 5-grid has count 0 at
bin 1, and the returned spectrum is 0 there. -/
theorem C7_empty_bin_zero_witness :
    (¬ 1 < (ModeField.mk 5 1 []).components) ∧ binCount (ModeField.mk 5 1 []) 1 = 0 ∧
    (1 : ℕ) < ((5 : ℕ) - 1) / 2 + 1 ∧
    ∀ avg, power_spectrum (ModeField.mk 5 1 []) = Except.ok avg → avg.getD 1 1 = 0 :=
  ⟨by decide, by decide, by decide,
   C7_empty_bin_zero (ModeField.mk 5 1 []) (by decide) 1 (by decide) (by decide)⟩

/-!
## Embedding of `include/gevolution/gr_pm.hpp`

Grid cells are indexed by `Coord := Fin 3 → ℤ`.  A LATfield2 field with
ghost width 2 owns the cells with every coordinate in `[-2, N+2)`; the
embedding uses total functions on `ℤ³` whose values outside that range
model unowned memory (arbitrary, never read by the engine).  `updateHalo`
writes every ghost cell with the periodically wrapped interior value and
leaves all other cells alone.
-/

/-- A cell coordinate of the 3-dimensional lattice. -/
abbrev Coord := Fin 3 → ℤ

/-- A scalar position-space field (`Field<Real>` with 1 component). -/
abbrev SField := Coord → ℚ

/-- A 3-vector position-space field. -/
abbrev VField := Coord → Fin 3 → ℚ

/-- A 3×3 tensor position-space field. -/
abbrev TField := Coord → Fin 3 → Fin 3 → ℚ

/-- A scalar mode-space field (`Field<Cplx>`). -/
abbrev CSField := Coord → CQ

/-- A 3-vector mode-space field. -/
abbrev CVField := Coord → Fin 3 → CQ

/-- A 3×3 tensor mode-space field. -/
abbrev CTField := Coord → Fin 3 → Fin 3 → CQ

/-- The interior (non-ghost) cells of the size-`N` lattice. -/
def inInterior (N : ℕ) (z : Coord) : Prop := ∀ i, 0 ≤ z i ∧ z i < (N : ℤ)

instance (N : ℕ) (z : Coord) : Decidable (inInterior N z) :=
  inferInstanceAs (Decidable (∀ i, 0 ≤ z i ∧ z i < (N : ℤ)))

/-- The cells owned by a field: interior plus the ghost halo of width 2. -/
def inHaloExt (N : ℕ) (z : Coord) : Prop := ∀ i, -2 ≤ z i ∧ z i < (N : ℤ) + 2

instance (N : ℕ) (z : Coord) : Decidable (inHaloExt N z) :=
  inferInstanceAs (Decidable (∀ i, -2 ≤ z i ∧ z i < (N : ℤ) + 2))

/-- Periodic wrap of a coordinate into the interior. -/
def wrap (N : ℕ) (z : Coord) : Coord := fun i => z i % (N : ℤ)

/-- `Field::updateHalo`: every ghost cell receives the periodic image of the
interior; interior cells (and unowned memory) are untouched. -/
def updateHalo (N : ℕ) (F : SField) : SField := fun z =>
  if inInterior N z then F z
  else if inHaloExt N z then F (wrap N z) else F z

/-- `updateHalo` for a 3-vector field (componentwise). -/
def updateHaloV (N : ℕ) (F : VField) : VField := fun z i =>
  if inInterior N z then F z i
  else if inHaloExt N z then F (wrap N z) i else F z i

/-- `updateHalo` for a tensor field (componentwise). -/
def updateHaloT (N : ℕ) (F : TField) : TField := fun z i j =>
  if inInterior N z then F z i j
  else if inHaloExt N z then F (wrap N z) i j else F z i j

/-- `relativistic_pm::scalar_to_zero`: write 0 at every interior site, then
refresh the halo. -/
def scalar_to_zero (N : ℕ) (F : SField) : SField :=
  updateHalo N (fun z => if inInterior N z then 0 else F z)

/-- `relativistic_pm::vector_to_zero`. -/
def vector_to_zero (N : ℕ) (F : VField) : VField :=
  updateHaloV N (fun z i => if inInterior N z then 0 else F z i)

/-- `relativistic_pm::tensor_to_zero`. -/
def tensor_to_zero (N : ℕ) (F : TField) : TField :=
  updateHaloT N (fun z i j => if inInterior N z then 0 else F z i j)

/-- The fields of a `relativistic_pm` engine: metric perturbations, source
fields, and their mode-space counterparts. -/
structure PMState where
  phi : SField
  chi : SField
  Bi : VField
  T00 : SField
  T0i : VField
  Tij : TField
  phi_FT : CSField
  chi_FT : CSField
  Bi_FT : CVField
  T00_FT : CSField
  T0i_FT : CVField
  Tij_FT : CTField

/-- The `relativistic_pm(int N)` constructor body: the six position-space
fields are zeroed (interior write + halo refresh); the freshly allocated
memory `st0` is otherwise left as is (the constructor does not touch the
mode-space fields). -/
def relativistic_pm (N : ℕ) (st0 : PMState) : PMState :=
  { st0 with
    phi := scalar_to_zero N st0.phi
    chi := scalar_to_zero N st0.chi
    Bi := vector_to_zero N st0.Bi
    T00 := scalar_to_zero N st0.T00
    T0i := vector_to_zero N st0.T0i
    Tij := tensor_to_zero N st0.Tij }

lemma inInterior_of_wrap (N : ℕ) (hN : 0 < N) (z : Coord) :
    inInterior N (wrap N z) := by
  intro i
  have hNZ : (0 : ℤ) < (N : ℤ) := by exact_mod_cast hN
  exact ⟨Int.emod_nonneg _ (by omega), Int.emod_lt_of_pos _ hNZ⟩

lemma scalar_to_zero_eq_zero (N : ℕ) (hN : 0 < N) (F : SField) (z : Coord)
    (hz : inHaloExt N z) : scalar_to_zero N F z = 0 := by
  unfold scalar_to_zero updateHalo
  by_cases hi : inInterior N z
  · simp [hi]
  · simp [hi, hz, inInterior_of_wrap N hN z]

lemma vector_to_zero_eq_zero (N : ℕ) (hN : 0 < N) (F : VField) (z : Coord)
    (i : Fin 3) (hz : inHaloExt N z) : vector_to_zero N F z i = 0 := by
  unfold vector_to_zero updateHaloV
  by_cases hi : inInterior N z
  · simp [hi]
  · simp [hi, hz, inInterior_of_wrap N hN z]

lemma tensor_to_zero_eq_zero (N : ℕ) (hN : 0 < N) (F : TField) (z : Coord)
    (i j : Fin 3) (hz : inHaloExt N z) : tensor_to_zero N F z i j = 0 := by
  unfold tensor_to_zero updateHaloT
  by_cases hi : inInterior N z
  · simp [hi]
  · simp [hi, hz, inInterior_of_wrap N hN z]

/-- C9: immediately after construction with grid size `N`, every owned cell
— interior and ghost halo alike — of each potential field (phi, chi, Bi)
and each source field (T00, T0i, Tij) holds exactly zero, whatever the
freshly allocated memory held before. -/
theorem C9_constructor_zeroes (N : ℕ) (hN : 0 < N) (st0 : PMState) (z : Coord)
    (hz : inHaloExt N z) :
    (relativistic_pm N st0).phi z = 0 ∧ (relativistic_pm N st0).chi z = 0 ∧
    (∀ i, (relativistic_pm N st0).Bi z i = 0) ∧
    (relativistic_pm N st0).T00 z = 0 ∧
    (∀ i, (relativistic_pm N st0).T0i z i = 0) ∧
    (∀ i j, (relativistic_pm N st0).Tij z i j = 0) := by
  refine ⟨?_, ?_, ?_, ?_, ?_, ?_⟩
  · exact scalar_to_zero_eq_zero N hN st0.phi z hz
  · exact scalar_to_zero_eq_zero N hN st0.chi z hz
  · intro i; exact vector_to_zero_eq_zero N hN st0.Bi z i hz
  · exact scalar_to_zero_eq_zero N hN st0.T00 z hz
  · intro i; exact vector_to_zero_eq_zero N hN st0.T0i z i hz
  · intro i j; exact tensor_to_zero_eq_zero N hN st0.Tij z i j hz

/-- A pre-construction state whose every cell holds garbage (the value 5),
used to witness that construction zeroes whatever was there. -/
def junkPM : PMState :=
  ⟨fun _ => 5, fun _ => 5, fun _ _ => 5, fun _ => 5, fun _ _ => 5, fun _ _ _ => 5,
   fun _ => (5, 5), fun _ => (5, 5), fun _ _ => (5, 5),
   fun _ => (5, 5), fun _ _ => (5, 5), fun _ _ _ => (5, 5)⟩

/-- Witness for C9 at `N = 3`, garbage memory, and the ghost cell
`(-2, 4, 0)`. -/
theorem C9_constructor_zeroes_witness :
    0 < 3 ∧ inHaloExt 3 ![-2, 4, 0] ∧
    ((relativistic_pm 3 junkPM).phi ![-2, 4, 0] = 0 ∧
     (relativistic_pm 3 junkPM).chi ![-2, 4, 0] = 0 ∧
     (∀ i, (relativistic_pm 3 junkPM).Bi ![-2, 4, 0] i = 0) ∧
     (relativistic_pm 3 junkPM).T00 ![-2, 4, 0] = 0 ∧
     (∀ i, (relativistic_pm 3 junkPM).T0i ![-2, 4, 0] i = 0) ∧
     (∀ i j, (relativistic_pm 3 junkPM).Tij ![-2, 4, 0] i j = 0)) :=
  ⟨by decide, by decide, C9_constructor_zeroes 3 (by decide) junkPM ![-2, 4, 0] (by decide)⟩

/-!
## `relativistic_pm::compute_forces`

Particles are stored by the ensemble keyed by containing cell; the loop
over `pcls.field()(xpart).parts` is embedded as a list of
(cell, particle) pairs.  The transient field `Fx` is computed at interior
sites and its halo refreshed before the gather, so a read of `Fx` at any
cell is the gradient formula evaluated at the periodically wrapped
coordinate.
-/

/-- A particle as the force interpolator sees it: position and canonical
momentum in grid units, mass weight, and the acceleration storage it
writes. -/
structure Particle where
  pos : Fin 3 → ℚ
  mom : Fin 3 → ℚ
  mass : ℚ
  acc : Fin 3 → ℚ

/-- Coordinate shifted by `d` cells along axis `i` (the LATfield2 site
arithmetic `x+i`, `x-i`, `x+i+i`, ...). -/
def shift (x : Coord) (i : Fin 3) (d : ℤ) : Coord :=
  fun l => if l = i then x l + d else x l

/-- The transient gradient field of `compute_forces`:
`Fx(x) = factor( 2/3(phi(x+i)-phi(x-i)) - 1/12(phi(x+i+i)-phi(x-i-i)) )`
with `factor = 1/dx`, `dx = 1/N`, evaluated at interior sites. -/
def gradient_field (N : ℕ) (phi : SField) (i : Fin 3) : SField :=
  let dx : ℚ := 1 / (N : ℚ)
  let factor : ℚ := 1 / dx
  fun x =>
    factor * (2 / 3 * (phi (shift x i 1) - phi (shift x i (-1)))
      - 1 / 12 * (phi (shift x i 2) - phi (shift x i (-2))))

/-- The transient field `Fx` as read after `Fx.updateHalo()`: at any owned
cell the value is the gradient formula at the periodic interior image. -/
def Fx (N : ℕ) (phi : SField) (i : Fin 3) : SField :=
  fun z => gradient_field N phi i (wrap N z)

/-- `ref_dist[l] = part.pos[l]/dx - xpart.coord(l)`. -/
def ref_dist (N : ℕ) (p : Particle) (cell : Coord) : Fin 3 → ℚ :=
  fun l => p.pos l / (1 / (N : ℚ)) - (cell l : ℚ)

/-- The eight corner offsets of the gather, in the order of the eight
accumulation lines of `compute_forces`:
`xpart`, `xpart+0`, `xpart+1`, `xpart+1+0`, `xpart+2`, `xpart+2+0`,
`xpart+2+1`, `xpart+2+1+0`. -/
def cornerOffset : Fin 8 → Coord
  | 0 => ![0, 0, 0]
  | 1 => ![1, 0, 0]
  | 2 => ![0, 1, 0]
  | 3 => ![1, 1, 0]
  | 4 => ![0, 0, 1]
  | 5 => ![1, 0, 1]
  | 6 => ![0, 1, 1]
  | 7 => ![1, 1, 1]

/-- The eight corner weights of the gather, in the order of the eight
accumulation lines of `compute_forces`. -/
def cornerWeight (r : Fin 3 → ℚ) : Fin 8 → ℚ
  | 0 => (1 - r 0) * (1 - r 1) * (1 - r 2)
  | 1 => (r 0) * (1 - r 1) * (1 - r 2)
  | 2 => (1 - r 0) * (r 1) * (1 - r 2)
  | 3 => (r 0) * (r 1) * (1 - r 2)
  | 4 => (1 - r 0) * (1 - r 1) * (r 2)
  | 5 => (r 0) * (1 - r 1) * (r 2)
  | 6 => (1 - r 0) * (r 1) * (r 2)
  | 7 => (r 0) * (r 1) * (r 2)

/-- The acceleration component `part.acc[i] = -grad_i` computed by
`compute_forces` for a particle in cell `cell`: the eight-line accumulation
of `cornerWeight * Fx` at the surrounding corners, negated. -/
def particle_acc (N : ℕ) (phi : SField) (cell : Coord) (p : Particle)
    (i : Fin 3) : ℚ :=
  -(∑ k : Fin 8, cornerWeight (ref_dist N p cell) k *
      Fx N phi i (fun l => cell l + cornerOffset k l))

/-- `relativistic_pm::compute_forces` (a `const` member): reads `phi`,
builds the transient `Fx` per axis, and writes only the particles'
acceleration storage. -/
def compute_forces (N : ℕ) (st : PMState) (pcls : List (Coord × Particle)) :
    PMState × List (Coord × Particle) :=
  (st, pcls.map fun cp =>
    (cp.1, { cp.2 with acc := fun i => particle_acc N st.phi cp.1 cp.2 i }))

/-- The gradient field exactly as claim C1 words it: centered
finite-difference coefficients 2/3 (±1 cell) and -1/12 (±2 cells), scaled
by 1/grid-spacing. -/
def claimC1_gradient (N : ℕ) (phi : SField) (i : Fin 3) : SField :=
  fun x => (1 / (1 / (N : ℚ))) *
    (2 / 3 * (phi (shift x i 1) - phi (shift x i (-1)))
      - 1 / 12 * (phi (shift x i 2) - phi (shift x i (-2))))

/-- The multilinear corner weight of the claim: the product over the three
axes of `r l` (corner displaced along axis `l`) or `1 - r l` (corner not
displaced), for a corner offset `s` with entries 0 or 1. -/
def cicWeight (r : Fin 3 → ℚ) (s : Coord) : ℚ :=
  ∏ l, if s l = 1 then r l else 1 - r l

/-- The acceleration as claim C1 literally states it: 8-corner multilinear
interpolation, at the particle's fractional cell offset, of the
1/grid-spacing-scaled gradient field, with the interpolated value *further*
scaled by 1/grid-spacing at the acceleration step, and negated. -/
def claimC1_acc (N : ℕ) (phi : SField) (cell : Coord) (p : Particle)
    (i : Fin 3) : ℚ :=
  let dx : ℚ := 1 / (N : ℚ)
  let r : Fin 3 → ℚ := fun l => p.pos l / dx - (cell l : ℚ);
  -((1 / dx) * ∑ k : Fin 8, cicWeight r (cornerOffset k) *
      claimC1_gradient N phi i (wrap N (fun l => cell l + cornerOffset k l)))

/-- C1 counterexample: on a 4-grid with `phi(z) = z₀`, a particle at the
origin of cell (0,0,0) receives from `compute_forces` the acceleration
computed with a single 1/grid-spacing factor (value -4), not the doubly
scaled value of the claim (-16). -/
theorem C1_counterexample :
    particle_acc 4 (fun z => ((z 0 : ℤ) : ℚ)) ![0, 0, 0]
        (Particle.mk (fun _ => 0) (fun _ => 0) 1 (fun _ => 0)) 0 ≠
      claimC1_acc 4 (fun z => ((z 0 : ℤ) : ℚ)) ![0, 0, 0]
        (Particle.mk (fun _ => 0) (fun _ => 0) 1 (fun _ => 0)) 0 := by
  have hcode : particle_acc 4 (fun z => ((z 0 : ℤ) : ℚ)) ![0, 0, 0]
      (Particle.mk (fun _ => 0) (fun _ => 0) 1 (fun _ => 0)) 0 = -4 := by
    simp only [particle_acc, cornerWeight, cornerOffset, Fx, gradient_field,
      ref_dist, wrap, shift, Fin.sum_univ_eight]
    norm_num [Matrix.cons_val_zero, Matrix.cons_val_one, Matrix.head_cons,
      Matrix.cons_val_fin_one, Fin.isValue]
  have hclaim : claimC1_acc 4 (fun z => ((z 0 : ℤ) : ℚ)) ![0, 0, 0]
      (Particle.mk (fun _ => 0) (fun _ => 0) 1 (fun _ => 0)) 0 = -16 := by
    simp only [claimC1_acc, cicWeight, cornerOffset, claimC1_gradient,
      wrap, shift, Fin.sum_univ_eight, Fin.prod_univ_three]
    norm_num [Matrix.cons_val_zero, Matrix.cons_val_one, Matrix.head_cons,
      Matrix.cons_val_fin_one, Fin.isValue]
  rw [hcode, hclaim]
  norm_num

/-- C1 (amended): for every particle, cell and axis, `compute_forces`
sets the acceleration component to the negative of the 8-corner multilinear
interpolation, at the particle's fractional offset within its containing
cell, of the gradient field built from `phi` with centered coefficients 2/3
(±1 cell) and -1/12 (±2 cells) scaled by 1/grid-spacing — with no further
1/grid-spacing scaling at the acceleration step. -/
theorem C1_amended_acceleration (N : ℕ) (phi : SField) (cell : Coord)
    (p : Particle) (i : Fin 3) :
    particle_acc N phi cell p i =
      -(∑ k : Fin 8, cicWeight (ref_dist N p cell) (cornerOffset k) *
          claimC1_gradient N phi i (wrap N (fun l => cell l + cornerOffset k l))) := by
  unfold particle_acc
  congr 1
  apply Finset.sum_congr rfl
  intro k _
  have hgrad : Fx N phi i (fun l => cell l + cornerOffset k l) =
      claimC1_gradient N phi i (wrap N (fun l => cell l + cornerOffset k l)) := by
    simp only [Fx, gradient_field, claimC1_gradient]
  rw [hgrad]
  congr 1
  fin_cases k <;>
    simp [cornerWeight, cicWeight, cornerOffset, Fin.prod_univ_three]

/-- C10: for a fractional offset with every component in [0,1], the eight
multilinear corner weights used by `compute_forces` sum exactly to 1 and
are each nonnegative, so the interpolated gradient is a convex combination
of the eight surrounding corner values. -/
theorem C10_convex_weights (r : Fin 3 → ℚ) (h : ∀ l, 0 ≤ r l ∧ r l ≤ 1) :
    (∑ k : Fin 8, cornerWeight r k) = 1 ∧ ∀ k, 0 ≤ cornerWeight r k := by
  constructor
  · rw [Fin.sum_univ_eight]
    simp only [cornerWeight]
    ring
  · intro k
    fin_cases k <;>
      · simp only [cornerWeight]
        refine mul_nonneg (mul_nonneg ?_ ?_) ?_ <;>
          linarith [(h 0).1, (h 0).2, (h 1).1, (h 1).2, (h 2).1, (h 2).2]

/-- Witness for C10 at the offset (1/2, 1/2, 1/2). -/
theorem C10_convex_weights_witness :
    (∀ l : Fin 3, 0 ≤ (fun _ : Fin 3 => (1 : ℚ) / 2) l ∧
      (fun _ : Fin 3 => (1 : ℚ) / 2) l ≤ 1) ∧
    ((∑ k : Fin 8, cornerWeight (fun _ => (1 : ℚ) / 2) k) = 1 ∧
      ∀ k, 0 ≤ cornerWeight (fun _ => (1 : ℚ) / 2) k) :=
  ⟨fun _ => by norm_num,
   C10_convex_weights (fun _ => (1 : ℚ) / 2) (fun _ => by norm_num)⟩

/-- C8: `compute_forces` mutates no field of the engine — the returned
engine state is the input state, every field included — and the particle
list is transformed elementwise so that position, momentum, mass (and cell
key) are untouched and only the acceleration storage is written. -/
theorem C8_frame_effect (N : ℕ) (st : PMState) (pcls : List (Coord × Particle)) :
    (compute_forces N st pcls).1 = st ∧
    (compute_forces N st pcls).2.length = pcls.length ∧
    ∀ n : ℕ, (compute_forces N st pcls).2[n]? =
      (pcls[n]?).map (fun cp =>
        (cp.1, { cp.2 with acc := fun i => particle_acc N st.phi cp.1 cp.2 i })) := by
  refine ⟨rfl, ?_, ?_⟩
  · simp [compute_forces]
  · intro n
    simp [compute_forces, List.getElem?_map]

/-!
## The solver pipeline: `sample` and `compute_potential`

The bodies of `projection_init`, `projection_T00_project`,
`prepareFTsource`, `solveModifiedPoissonFT`, `projectFTscalar` and
`projectFTvector` live in `gevolution.hpp`, which is not among the sources;
their models below are taken from the specification (see the doc comment of
each).  The FFT backend is external by design: the forward and backward
scalar transforms are parameters `fS`/`bS`; a multi-component field is
transformed componentwise.
-/

/-- The signed wavenumber of a mode-lattice coordinate (the fold
`k > Nyquist ↦ k - N` of the aliasing convention, applied to the
periodically wrapped coordinate). -/
def signedModeZ (N : ℕ) (n : ℤ) : ℤ :=
  if n ≤ ((N : ℤ) - 1) / 2 then n else n - (N : ℤ)

/-- The squared integer radial wavenumber magnitude of a mode coordinate. -/
def gridK2 (N : ℕ) (k : Coord) : ℚ :=
  ((∑ i, (signedModeZ N (wrap N k i)) ^ 2 : ℤ) : ℚ)

/-- Modelled from the spec: `prepareFTsource` (the phi-solve overload,
missing from the sources).  "Build a composite source combining `T00`,
a background density parameter Ω, the previous `phi` value (used as the
implicit term), and three time-step-dependent coefficients" — embedded as
the background subtraction `c2·(source - Ω)` plus the implicit/mass-like
`phi` terms `(c3 - c1)·phi`, written at interior sites into `result`
(which aliases `T00` at the call site); the `chi` argument of the call is
not named by the spec's description of the composite source and is unused. -/
def prepareFTsource (N : ℕ) (phi chi source : SField) (Omega : ℚ)
    (result : SField) (c1 c2 c3 : ℚ) : SField :=
  fun z => if inInterior N z then
    c2 * (source z - Omega) + (c3 - c1) * phi z
  else result z

/-- Modelled from the spec: `solveModifiedPoissonFT` (missing from the
sources).  "For every mode solve the scalar equation
`(k²·c1 + c2)·phi_FT = source_FT`", with the DC mode special-cased so that
no division by zero occurs (`coeff = 1/dx²`, `modif = 3·Hc/dt`). -/
def solveModifiedPoissonFT (N : ℕ) (source : CSField) (coeff modif : ℚ) :
    CSField :=
  fun k =>
    if gridK2 N k = 0 ∧ modif = 0 then (0, 0)
    else cdivr (source k) (gridK2 N k * coeff + modif)

/-- Modelled from the spec: `prepareFTsource` (the chi-solve overload,
missing from the sources).  "Build a source from the off-diagonal/traceless
projection of `Tij`, scaled by a factor 2f" — written at interior sites
into `result` (which aliases `Tij` at the call site).  The `phi` argument
is the scratch/template reuse flagged open in the spec and is unused. -/
def prepareFTsourceTensor (N : ℕ) (phi : SField) (source result : TField)
    (coeff : ℚ) : TField :=
  fun z i j => if inInterior N z then
    coeff * (source z i j -
      (if i = j then (source z 0 0 + source z 1 1 + source z 2 2) / 3 else 0))
  else result z i j

/-- Modelled from the spec: `projectFTscalar` (missing from the sources).
`chi_FT = -Π(k)·Tij_FT / k²` where Π is the trace-free part of `k̂ᵢk̂ⱼ`
contracted with `Tij_FT`; the DC mode is special-cased to zero. -/
def projectFTscalar (N : ℕ) (S : CTField) : CSField :=
  fun k =>
    if gridK2 N k = 0 then (0, 0)
    else cdivr
      (cneg (∑ i, ∑ j,
        csmul ((signedModeZ N (wrap N k i) * signedModeZ N (wrap N k j) : ℤ) / gridK2 N k -
          (if i = j then (1 : ℚ) / 3 else 0)) (S k i j)))
      (gridK2 N k)

/-- Modelled from the spec: `projectFTvector` (missing from the sources).
`Bi_FT = f·(δᵢⱼ - k̂ᵢk̂ⱼ)/k² · T0i_FT`, removing the longitudinal
component; the DC mode is special-cased to zero. -/
def projectFTvector (N : ℕ) (S : CVField) (f : ℚ) : CVField :=
  fun k i =>
    if gridK2 N k = 0 then (0, 0)
    else csmul f (cdivr
      (∑ j, csmul ((if i = j then 1 else 0) -
        (signedModeZ N (wrap N k i) * signedModeZ N (wrap N k j) : ℤ) / gridK2 N k) (S k j))
      (gridK2 N k))

/-- Componentwise forward transform of a 3-vector field. -/
def liftFwdV (fS : SField → CSField) (F : VField) : CVField :=
  fun z i => fS (fun w => F w i) z

/-- Componentwise forward transform of a tensor field. -/
def liftFwdT (fS : SField → CSField) (F : TField) : CTField :=
  fun z i j => fS (fun w => F w i j) z

/-- `relativistic_pm::compute_phi`: prepare the composite source in place in
`T00`, transform it forward, solve the modified Poisson equation in mode
space, transform `phi` back and refresh its halo. -/
def compute_phi (N : ℕ) (fS : SField → CSField) (bS : CSField → SField)
    (a Hc fourpiG dt Omega : ℚ) (st : PMState) : PMState :=
  let dx : ℚ := 1 / (N : ℚ)
  let T00' := prepareFTsource N st.phi st.chi st.T00 Omega st.T00
    (3 * Hc * dx * dx / dt) (fourpiG * dx * dx / a) (3 * Hc * Hc * dx * dx)
  let T00_FT' := fS T00'
  let phi_FT' := solveModifiedPoissonFT N T00_FT' (1 / (dx * dx)) (3 * Hc / dt)
  let phi' := updateHalo N (fun z => if inInterior N z then bS phi_FT' z else st.phi z)
  { st with T00 := T00', T00_FT := T00_FT', phi_FT := phi_FT', phi := phi' }

/-- `relativistic_pm::compute_chi`: prepare the traceless source in place in
`Tij`, transform it forward, project out the scalar part, transform `chi`
back and refresh its halo. -/
def compute_chi (N : ℕ) (fS : SField → CSField) (bS : CSField → SField)
    (f : ℚ) (st : PMState) : PMState :=
  let Tij' := prepareFTsourceTensor N st.phi st.Tij st.Tij (2 * f)
  let Tij_FT' := liftFwdT fS Tij'
  let chi_FT' := projectFTscalar N Tij_FT'
  let chi' := updateHalo N (fun z => if inInterior N z then bS chi_FT' z else st.chi z)
  { st with Tij := Tij', Tij_FT := Tij_FT', chi_FT := chi_FT', chi := chi' }

/-- `relativistic_pm::compute_Bi`: transform `T0i` forward, apply the
transverse projection, transform `Bi` back and refresh its halo. -/
def compute_Bi (N : ℕ) (fS : SField → CSField) (bS : CSField → SField)
    (f : ℚ) (st : PMState) : PMState :=
  let T0i_FT' := liftFwdV fS st.T0i
  let Bi_FT' := projectFTvector N T0i_FT' f
  let Bi' := updateHaloV N
    (fun z i => if inInterior N z then bS (fun w => Bi_FT' w i) z else st.Bi z i)
  { st with T0i_FT := T0i_FT', Bi_FT := Bi_FT', Bi := Bi' }

/-- `relativistic_pm::compute_potential`: `dx = 1/lat.size()[0]`, then
`compute_phi(a,Hc,fourpiG,dt,Omega)`, `compute_chi(fourpiG·dx·dx/a)`,
`compute_Bi(fourpiG·dx·dx)`, in that order. -/
def compute_potential (N : ℕ) (fS : SField → CSField) (bS : CSField → SField)
    (a Hc fourpiG dt Omega : ℚ) (st : PMState) : PMState :=
  let dx : ℚ := 1 / (N : ℚ)
  compute_Bi N fS bS (fourpiG * dx * dx)
    (compute_chi N fS bS (fourpiG * dx * dx / a)
      (compute_phi N fS bS a Hc fourpiG dt Omega st))

/-- C5: `compute_potential(a, Hc, fourpiG, dt, Omega)` is exactly
`compute_phi(a,Hc,fourpiG,dt,Omega)` followed by
`compute_chi(fourpiG·dx²/a)` followed by `compute_Bi(fourpiG·dx²)` with
`dx = 1/N` — in particular the phi solve completes before the chi solve
starts, and the Bi solve does not precede phi's completion. -/
theorem C5_solve_order (N : ℕ) (fS : SField → CSField) (bS : CSField → SField)
    (a Hc fourpiG dt Omega : ℚ) (st : PMState) :
    compute_potential N fS bS a Hc fourpiG dt Omega st =
      compute_Bi N fS bS (fourpiG * (1 / (N : ℚ)) * (1 / (N : ℚ)))
        (compute_chi N fS bS (fourpiG * (1 / (N : ℚ)) * (1 / (N : ℚ)) / a)
          (compute_phi N fS bS a Hc fourpiG dt Omega st)) := rfl

/-!
## `relativistic_pm::sample`

`projection_init` / `projection_*_project` / `projection_*_comm` live in
`gevolution.hpp` (not among the sources) and are modelled from the spec:
reset every owned cell of the target to zero, deposit each particle's
mass-weighted quantity on the 8 surrounding vertices with multilinear
weights, then synchronize the ghost cells.  The deposited per-particle
quantity (mass-weighted, involving the relativistic factor `√(a²+|q|²)`
and the current `phi`) is supplied as a function parameter `q`, since the
square root leaves the rational value domain; every theorem below holds
for all `q`. -/

/-- Modelled from the spec: `projection_init` — "zero every cell of the
source field (including halo)". -/
def projection_init (N : ℕ) (F : SField) : SField :=
  fun z => if inHaloExt N z then 0 else F z

/-- `projection_init` for a vector component. -/
def projection_initV (N : ℕ) (F : VField) (i : Fin 3) : SField :=
  fun z => if inHaloExt N z then 0 else F z i

/-- `projection_init` for a tensor component. -/
def projection_initT (N : ℕ) (F : TField) (i j : Fin 3) : SField :=
  fun z => if inHaloExt N z then 0 else F z i j

/-- Modelled from the spec: the CIC deposit of one particle — distribute
the quantity `w` to the 8 vertices surrounding the particle with
multilinear weights computed from its fractional offset within its
containing cell, accumulating into the periodic interior image. -/
def depositOne (N : ℕ) (w : ℚ) (p : Particle) (F : SField) : SField :=
  let c : Coord := fun i => ⌊p.pos i * (N : ℚ)⌋
  let rd : Fin 3 → ℚ := fun i => p.pos i * (N : ℚ) - (c i : ℚ)
  fun z => F z + ∑ k : Fin 8,
    if wrap N (fun i => c i + cornerOffset k i) = wrap N z ∧ inInterior N z
    then cicWeight rd (cornerOffset k) * w else 0

/-- Modelled from the spec: a `projection_*_project` pass — deposit every
particle of the ensemble, reading the current `phi` through the quantity
function `q`. -/
def projection_project (N : ℕ) (q : SField → Particle → ℚ) (phi : SField)
    (pcls : List Particle) (F : SField) : SField :=
  pcls.foldl (fun G p => depositOne N (q phi p) p G) F

/-- `relativistic_pm::sample`: for each of T00, T0i, Tij in turn: reset,
deposit all particles (reading `phi`), synchronize ghost cells.  The
quantity functions `qT00`, `qT0i`, `qTij` model the integrands of
`projection_T00_project` / `projection_T0i_project` /
`projection_Tij_project` (they receive the scale factor through `a`). -/
def sample (N : ℕ) (qT00 : ℚ → SField → Particle → ℚ)
    (qT0i : ℚ → Fin 3 → SField → Particle → ℚ)
    (qTij : ℚ → Fin 3 → Fin 3 → SField → Particle → ℚ)
    (pcls : List Particle) (a : ℚ) (st : PMState) : PMState :=
  { st with
    T00 := updateHalo N
      (projection_project N (qT00 a) st.phi pcls (projection_init N st.T00))
    T0i := updateHaloV N (fun z i =>
      projection_project N (qT0i a i) st.phi pcls (projection_initV N st.T0i i) z)
    Tij := updateHaloT N (fun z i j =>
      projection_project N (qTij a i j) st.phi pcls (projection_initT N st.Tij i j) z) }

/-- One full engine cycle from freshly constructed state: construct,
sample, compute_potential. -/
def full_cycle (N : ℕ) (fS : SField → CSField) (bS : CSField → SField)
    (qT00 : ℚ → SField → Particle → ℚ)
    (qT0i : ℚ → Fin 3 → SField → Particle → ℚ)
    (qTij : ℚ → Fin 3 → Fin 3 → SField → Particle → ℚ)
    (pcls : List Particle) (a Hc fourpiG dt Omega : ℚ) (st0 : PMState) : PMState :=
  compute_potential N fS bS a Hc fourpiG dt Omega
    (sample N qT00 qT0i qTij pcls a (relativistic_pm N st0))

/-!
### The zero-input invariant (claim C2)

The FFT backend enters only through three facts: the transform of the zero
field is zero (forward `hf` and backward `hb`), and the forward transform
reads only the interior cells of its input (`hext`) — true of any discrete
Fourier transform over the lattice.
-/

/-- All six position-space fields of a state vanish at every owned cell. -/
def ZeroOnHalo (N : ℕ) (st : PMState) : Prop :=
  ∀ z, inHaloExt N z →
    st.phi z = 0 ∧ st.chi z = 0 ∧ (∀ i, st.Bi z i = 0) ∧
    st.T00 z = 0 ∧ (∀ i, st.T0i z i = 0) ∧ (∀ i j, st.Tij z i j = 0)

lemma inHaloExt_of_inInterior (N : ℕ) (z : Coord) (h : inInterior N z) :
    inHaloExt N z := by
  intro i
  have hi := h i
  omega

lemma updateHalo_zero (N : ℕ) (hN : 0 < N) (F : SField)
    (h : ∀ z, inInterior N z → F z = 0) :
    ∀ z, inHaloExt N z → updateHalo N F z = 0 := by
  intro z hz
  unfold updateHalo
  by_cases hi : inInterior N z
  · rw [if_pos hi]
    exact h z hi
  · rw [if_neg hi, if_pos hz]
    exact h _ (inInterior_of_wrap N hN z)

lemma updateHaloV_zero (N : ℕ) (hN : 0 < N) (F : VField)
    (h : ∀ z i, inInterior N z → F z i = 0) :
    ∀ z i, inHaloExt N z → updateHaloV N F z i = 0 := by
  intro z i hz
  unfold updateHaloV
  by_cases hi : inInterior N z
  · rw [if_pos hi]
    exact h z i hi
  · rw [if_neg hi, if_pos hz]
    exact h _ i (inInterior_of_wrap N hN z)

lemma updateHaloT_zero (N : ℕ) (hN : 0 < N) (F : TField)
    (h : ∀ z i j, inInterior N z → F z i j = 0) :
    ∀ z i j, inHaloExt N z → updateHaloT N F z i j = 0 := by
  intro z i j hz
  unfold updateHaloT
  by_cases hi : inInterior N z
  · rw [if_pos hi]
    exact h z i j hi
  · rw [if_neg hi, if_pos hz]
    exact h _ i j (inInterior_of_wrap N hN z)

lemma relativistic_pm_zero (N : ℕ) (hN : 0 < N) (st0 : PMState) :
    ZeroOnHalo N (relativistic_pm N st0) := by
  intro z hz
  exact ⟨scalar_to_zero_eq_zero N hN st0.phi z hz,
    scalar_to_zero_eq_zero N hN st0.chi z hz,
    fun i => vector_to_zero_eq_zero N hN st0.Bi z i hz,
    scalar_to_zero_eq_zero N hN st0.T00 z hz,
    fun i => vector_to_zero_eq_zero N hN st0.T0i z i hz,
    fun i j => tensor_to_zero_eq_zero N hN st0.Tij z i j hz⟩

lemma sample_empty_zero (N : ℕ) (hN : 0 < N)
    (qT00 : ℚ → SField → Particle → ℚ)
    (qT0i : ℚ → Fin 3 → SField → Particle → ℚ)
    (qTij : ℚ → Fin 3 → Fin 3 → SField → Particle → ℚ)
    (a : ℚ) (st : PMState) (hst : ZeroOnHalo N st) :
    ZeroOnHalo N (sample N qT00 qT0i qTij [] a st) := by
  intro z hz
  refine ⟨(hst z hz).1, (hst z hz).2.1, (hst z hz).2.2.1, ?_, ?_, ?_⟩
  · exact updateHalo_zero N hN _
      (fun w hw => by
        simp [projection_project, projection_init, inHaloExt_of_inInterior N w hw])
      z hz
  · intro i
    exact updateHaloV_zero N hN
      (fun w l => projection_project N (qT0i a l) st.phi []
        (projection_initV N st.T0i l) w)
      (fun w l hw => by
        simp [projection_project, projection_initV, inHaloExt_of_inInterior N w hw])
      z i hz
  · intro i j
    exact updateHaloT_zero N hN
      (fun w l m => projection_project N (qTij a l m) st.phi []
        (projection_initT N st.Tij l m) w)
      (fun w l m hw => by
        simp [projection_project, projection_initT, inHaloExt_of_inInterior N w hw])
      z i j hz

lemma solveModifiedPoissonFT_zero (N : ℕ) (coeff modif : ℚ) :
    solveModifiedPoissonFT N (fun _ => (0, 0)) coeff modif = fun _ => (0, 0) := by
  funext k
  unfold solveModifiedPoissonFT
  split
  · rfl
  · simp [cdivr]

lemma projectFTscalar_zero (N : ℕ) :
    projectFTscalar N (fun _ _ _ => (0, 0)) = fun _ => (0, 0) := by
  funext k
  unfold projectFTscalar
  split
  · rfl
  · simp [cdivr, cneg, csmul, Prod.ext_iff]

lemma projectFTvector_zero (N : ℕ) (f : ℚ) :
    projectFTvector N (fun _ _ => (0, 0)) f = fun _ _ => (0, 0) := by
  funext k i
  unfold projectFTvector
  split
  · rfl
  · simp [cdivr, cneg, csmul, Prod.ext_iff]

lemma fS_interior_zero (N : ℕ) (fS : SField → CSField)
    (hext : ∀ F G : SField, (∀ z, inInterior N z → F z = G z) → fS F = fS G)
    (hf : fS (fun _ => 0) = fun _ => (0, 0))
    (F : SField) (h : ∀ z, inInterior N z → F z = 0) :
    fS F = fun _ => (0, 0) := by
  rw [hext F (fun _ => 0) h]
  exact hf

lemma compute_phi_zero (N : ℕ) (hN : 0 < N) (fS : SField → CSField)
    (bS : CSField → SField)
    (hext : ∀ F G : SField, (∀ z, inInterior N z → F z = G z) → fS F = fS G)
    (hf : fS (fun _ => 0) = fun _ => (0, 0))
    (hb : bS (fun _ => (0, 0)) = fun _ => 0)
    (a Hc fourpiG dt : ℚ) (st : PMState) (hst : ZeroOnHalo N st) :
    ZeroOnHalo N (compute_phi N fS bS a Hc fourpiG dt 0 st) := by
  have hT00i : ∀ w, inInterior N w → st.T00 w = 0 :=
    fun w hw => (hst w (inHaloExt_of_inInterior N w hw)).2.2.2.1
  have hphii : ∀ w, inInterior N w → st.phi w = 0 :=
    fun w hw => (hst w (inHaloExt_of_inInterior N w hw)).1
  have hprep : ∀ w, inHaloExt N w →
      prepareFTsource N st.phi st.chi st.T00 0 st.T00
        (3 * Hc * (1 / (N : ℚ)) * (1 / (N : ℚ)) / dt)
        (fourpiG * (1 / (N : ℚ)) * (1 / (N : ℚ)) / a)
        (3 * Hc * Hc * (1 / (N : ℚ)) * (1 / (N : ℚ))) w = 0 := by
    intro w hw
    unfold prepareFTsource
    by_cases hi : inInterior N w
    · rw [if_pos hi, hT00i w hi, hphii w hi]
      ring
    · rw [if_neg hi]
      exact (hst w hw).2.2.2.1
  have hFT : fS (prepareFTsource N st.phi st.chi st.T00 0 st.T00
      (3 * Hc * (1 / (N : ℚ)) * (1 / (N : ℚ)) / dt)
      (fourpiG * (1 / (N : ℚ)) * (1 / (N : ℚ)) / a)
      (3 * Hc * Hc * (1 / (N : ℚ)) * (1 / (N : ℚ)))) = fun _ => (0, 0) :=
    fS_interior_zero N fS hext hf _
      (fun w hw => hprep w (inHaloExt_of_inInterior N w hw))
  intro z hz
  refine ⟨?_, (hst z hz).2.1, (hst z hz).2.2.1, ?_, (hst z hz).2.2.2.2.1,
    (hst z hz).2.2.2.2.2⟩
  · show updateHalo N (fun w => if inInterior N w then
        bS (solveModifiedPoissonFT N (fS (prepareFTsource N st.phi st.chi st.T00 0 st.T00
          (3 * Hc * (1 / (N : ℚ)) * (1 / (N : ℚ)) / dt)
          (fourpiG * (1 / (N : ℚ)) * (1 / (N : ℚ)) / a)
          (3 * Hc * Hc * (1 / (N : ℚ)) * (1 / (N : ℚ)))))
          (1 / (1 / (N : ℚ) * (1 / (N : ℚ)))) (3 * Hc / dt)) w
      else st.phi w) z = 0
    apply updateHalo_zero N hN _ ?_ z hz
    intro w hw
    rw [if_pos hw, hFT, solveModifiedPoissonFT_zero, hb]
  · show prepareFTsource N st.phi st.chi st.T00 0 st.T00
      (3 * Hc * (1 / (N : ℚ)) * (1 / (N : ℚ)) / dt)
      (fourpiG * (1 / (N : ℚ)) * (1 / (N : ℚ)) / a)
      (3 * Hc * Hc * (1 / (N : ℚ)) * (1 / (N : ℚ))) z = 0
    exact hprep z hz

lemma compute_chi_zero (N : ℕ) (hN : 0 < N) (fS : SField → CSField)
    (bS : CSField → SField)
    (hext : ∀ F G : SField, (∀ z, inInterior N z → F z = G z) → fS F = fS G)
    (hf : fS (fun _ => 0) = fun _ => (0, 0))
    (hb : bS (fun _ => (0, 0)) = fun _ => 0)
    (f : ℚ) (st : PMState) (hst : ZeroOnHalo N st) :
    ZeroOnHalo N (compute_chi N fS bS f st) := by
  have hTiji : ∀ w i j, inInterior N w → st.Tij w i j = 0 :=
    fun w i j hw => (hst w (inHaloExt_of_inInterior N w hw)).2.2.2.2.2 i j
  have hprep : ∀ w (i j : Fin 3), inHaloExt N w →
      prepareFTsourceTensor N st.phi st.Tij st.Tij (2 * f) w i j = 0 := by
    intro w i j hw
    unfold prepareFTsourceTensor
    by_cases hi : inInterior N w
    · rw [if_pos hi, hTiji w i j hi, hTiji w 0 0 hi, hTiji w 1 1 hi, hTiji w 2 2 hi]
      by_cases hij : i = j
      · rw [if_pos hij]
        ring
      · rw [if_neg hij]
        ring
    · rw [if_neg hi]
      exact (hst w hw).2.2.2.2.2 i j
  have hlift : liftFwdT fS (prepareFTsourceTensor N st.phi st.Tij st.Tij (2 * f)) =
      fun _ _ _ => (0, 0) := by
    funext z i j
    show fS (fun w => prepareFTsourceTensor N st.phi st.Tij st.Tij (2 * f) w i j) z = (0, 0)
    rw [fS_interior_zero N fS hext hf _
      (fun w hw => hprep w i j (inHaloExt_of_inInterior N w hw))]
  intro z hz
  refine ⟨(hst z hz).1, ?_, (hst z hz).2.2.1, (hst z hz).2.2.2.1,
    (hst z hz).2.2.2.2.1, ?_⟩
  · show updateHalo N (fun w => if inInterior N w then
        bS (projectFTscalar N (liftFwdT fS
          (prepareFTsourceTensor N st.phi st.Tij st.Tij (2 * f)))) w
      else st.chi w) z = 0
    apply updateHalo_zero N hN _ ?_ z hz
    intro w hw
    rw [if_pos hw, hlift, projectFTscalar_zero, hb]
  · intro i j
    show prepareFTsourceTensor N st.phi st.Tij st.Tij (2 * f) z i j = 0
    exact hprep z i j hz

lemma compute_Bi_zero (N : ℕ) (hN : 0 < N) (fS : SField → CSField)
    (bS : CSField → SField)
    (hext : ∀ F G : SField, (∀ z, inInterior N z → F z = G z) → fS F = fS G)
    (hf : fS (fun _ => 0) = fun _ => (0, 0))
    (hb : bS (fun _ => (0, 0)) = fun _ => 0)
    (f : ℚ) (st : PMState) (hst : ZeroOnHalo N st) :
    ZeroOnHalo N (compute_Bi N fS bS f st) := by
  have hT0ii : ∀ w (i : Fin 3), inInterior N w → st.T0i w i = 0 :=
    fun w i hw => (hst w (inHaloExt_of_inInterior N w hw)).2.2.2.2.1 i
  have hlift : liftFwdV fS st.T0i = fun _ _ => (0, 0) := by
    funext z i
    show fS (fun w => st.T0i w i) z = (0, 0)
    rw [fS_interior_zero N fS hext hf _ (fun w hw => hT0ii w i hw)]
  intro z hz
  refine ⟨(hst z hz).1, (hst z hz).2.1, ?_, (hst z hz).2.2.2.1,
    (hst z hz).2.2.2.2.1, (hst z hz).2.2.2.2.2⟩
  intro i
  show updateHaloV N (fun w l => if inInterior N w then
      bS (fun v => projectFTvector N (liftFwdV fS st.T0i) f v l) w
    else st.Bi w l) z i = 0
  apply updateHaloV_zero N hN _ ?_ z i hz
  intro w l hw
  rw [if_pos hw, hlift, projectFTvector_zero]
  exact congrFun hb w

/-- C2 (amended): for an empty particle ensemble and background density
Ω = 0, a full `sample` followed by `compute_potential` leaves all three
source fields and all three potential fields exactly zero at every owned
cell, for any FFT backend that maps zero data to zero and reads only the
interior, any deposit quantities, and any solver parameters.  (With Ω ≠ 0
the claim fails: see the counterexample.) -/
theorem C2_amended_zero_cycle (N : ℕ) (hN : 0 < N) (fS : SField → CSField)
    (bS : CSField → SField)
    (hext : ∀ F G : SField, (∀ z, inInterior N z → F z = G z) → fS F = fS G)
    (hf : fS (fun _ => 0) = fun _ => (0, 0))
    (hb : bS (fun _ => (0, 0)) = fun _ => 0)
    (qT00 : ℚ → SField → Particle → ℚ)
    (qT0i : ℚ → Fin 3 → SField → Particle → ℚ)
    (qTij : ℚ → Fin 3 → Fin 3 → SField → Particle → ℚ)
    (a Hc fourpiG dt : ℚ) (st0 : PMState) :
    ZeroOnHalo N (full_cycle N fS bS qT00 qT0i qTij [] a Hc fourpiG dt 0 st0) := by
  unfold full_cycle compute_potential
  apply compute_Bi_zero N hN fS bS hext hf hb
  apply compute_chi_zero N hN fS bS hext hf hb
  apply compute_phi_zero N hN fS bS hext hf hb
  apply sample_empty_zero N hN
  exact relativistic_pm_zero N hN st0

/-- The discrete Fourier transform of a 1³ lattice: the single mode is the
single interior value (`e^{2πi·0} = 1`); used to witness the abstract
transform hypotheses. -/
def dft1_fwd : SField → CSField := fun F _ => (F (fun _ => 0), 0)

/-- The backward transform of a 1³ lattice. -/
def dft1_bwd : CSField → SField := fun G _ => (G (fun _ => 0)).1

lemma dft1_fwd_ext : ∀ F G : SField,
    (∀ z, inInterior 1 z → F z = G z) → dft1_fwd F = dft1_fwd G := by
  intro F G h
  funext z
  unfold dft1_fwd
  rw [h (fun _ => 0) (by decide)]

/-- Witness for the amended C2: a concrete empty-ensemble cycle on a
1-grid with the concrete 1³ transform, garbage initial memory and unit
solver parameters. -/
theorem C2_amended_zero_cycle_witness :
    0 < 1 ∧
    ZeroOnHalo 1 (full_cycle 1 dft1_fwd dft1_bwd (fun _ _ _ => 0)
      (fun _ _ _ _ => 0) (fun _ _ _ _ _ => 0) [] 1 1 1 1 0 junkPM) :=
  ⟨by decide,
   C2_amended_zero_cycle 1 (by decide) dft1_fwd dft1_bwd dft1_fwd_ext rfl rfl
     (fun _ _ _ => 0) (fun _ _ _ _ => 0) (fun _ _ _ _ _ => 0) 1 1 1 1 junkPM⟩

/-- C2 counterexample: with Ω = 1 (and a = Hc = 4πG = dt = 1) the empty
ensemble does not leave the fields zero: the phi-solve's composite source
(background subtraction of Ω) overwrites `T00` with the nonzero constant
-4πG·dx²·Ω/a = -1, so `T00` at the origin cell of a 1-grid ends at -1. -/
theorem C2_counterexample :
    (full_cycle 1 dft1_fwd dft1_bwd (fun _ _ _ => 0) (fun _ _ _ _ => 0)
      (fun _ _ _ _ _ => 0) [] 1 1 1 1 1 junkPM).T00 (fun _ => 0) ≠ 0 := by
  have hin : inInterior 1 (fun _ : Fin 3 => (0 : ℤ)) := by decide
  have hhalo : inHaloExt 1 (fun _ : Fin 3 => (0 : ℤ)) := by decide
  simp only [full_cycle, compute_potential, compute_Bi, compute_chi, compute_phi,
    sample, relativistic_pm, prepareFTsource, projection_project, List.foldl_nil,
    projection_init, scalar_to_zero, updateHalo, if_pos hin, if_pos hhalo]
  norm_num

end gevolution
